import Mathlib

/-!  Verification of the quantum-safe multi-signature wallet
     (`src/main.rs`) against its natural-language specification.

The Rust source keeps three pieces of state in `QuantumSafeWallet`:
an owner-to-public-key `HashMap`, a `threshold`, and an
owner-to-signature `HashMap`.  `HashMap`s are modelled as key-unique
association lists (`SMap`): `lookupS` is `HashMap::get`, `insertS` is
`HashMap::insert` (replace the value of an existing key, append a new
key).  The SPHINCS+ primitives and the PKCS#11 HSM are external
collaborators; they enter as parameters (a `verify` function, a `Ctx`
record of fallible session operations).  `unwrap` on a failed external
call aborts the Rust process; this is modelled by the
`SignOutcome.panicked` outcome, which carries the wallet state at the
moment of the panic.  Every `def` below is translated from the source,
except those whose doc comment says `Modelled from the spec:`.
-/

abbrev PubKey := Nat

abbrev Sig := Nat

abbrev Message := List Nat

/-- Association-list model of `std::collections::HashMap<String, α>`. -/
abbrev SMap (α : Type) := List (String × α)

/-- `HashMap::get`: first value stored under key `k`, if any. -/
def lookupS {α : Type} (k : String) : SMap α → Option α
  | [] => none
  | (k', v) :: t => if k' = k then some v else lookupS k t

/-- `HashMap::insert`: replace the value of an existing key, else append. -/
def insertS {α : Type} (k : String) (v : α) : SMap α → SMap α
  | [] => [(k, v)]
  | (k', v') :: t => if k' = k then (k, v) :: t else (k', v') :: insertS k v t

/-- The list of keys of an association list. -/
def keysS {α : Type} (m : SMap α) : List String := m.map Prod.fst

/-- The state of `QuantumSafeWallet` (src/main.rs, lines 12-17). -/
structure QuantumSafeWallet where
  owners : SMap PubKey
  threshold : Nat
  signatures : SMap Sig
deriving DecidableEq, Repr

/-- `QuantumSafeWallet::new` (src/main.rs, lines 20-27).  The Rust code
asserts `threshold <= owners.len()` and starts with an empty signature
map; a failed assertion is a construction-time panic, modelled as
`none`.  No lower bound on `threshold` and no non-emptiness of `owners`
is checked. -/
def walletNew (owners : SMap PubKey) (threshold : Nat) : Option QuantumSafeWallet :=
  if threshold ≤ owners.length then
    some { owners := owners, threshold := threshold, signatures := [] }
  else
    none

/-- `QuantumSafeWallet::verify_transaction` (src/main.rs, lines 44-54):
count the signature entries whose owner resolves in `owners` and whose
signature verifies against the resolved public key, and compare the
count with the threshold.  `sphincs::verify` is external and enters as
the parameter `verify`. -/
def verifyTransaction (verify : Message → Sig → PubKey → Bool)
    (w : QuantumSafeWallet) (m : Message) : Bool :=
  let validSigs :=
    (w.signatures.filter fun e =>
      match lookupS e.1 w.owners with
      | some pk => verify m e.2 pk
      | none => false).length
  decide (w.threshold ≤ validSigs)

/-- The PKCS#11 context `Ctx` as used by `sign_transaction_with_hsm`
(src/main.rs, lines 30-41): four operations, each of which can fail
(in Rust each returns a `Result` that the code unwraps).  Sessions are
handles (`Nat`); the slot and flag arguments of `open_session` are
constants in the source and are dropped. -/
structure Ctx where
  openSession : Option Nat
  login : Nat → String → Option Unit
  sign : Nat → Message → Option Sig
  logout : Nat → Option Unit

/-- One successful call on the HSM session boundary, in call order.
The PKCS#11 boundary also offers `close_session`; the source never
calls it, but the event is needed to state that fact. -/
inductive HsmEvent where
  | opened (s : Nat)
  | loggedIn (s : Nat)
  | signed (s : Nat)
  | loggedOut (s : Nat)
  | closed (s : Nat)
deriving DecidableEq, Repr

/-- How a call to `sign_transaction_with_hsm` ends: a normal return
(the Rust function returns `()`), or a panic from an `unwrap` on a
failed HSM call, which aborts the process.  Both carry the wallet state
at that moment. -/
inductive SignOutcome where
  | ok (w : QuantumSafeWallet)
  | panicked (w : QuantumSafeWallet)
deriving DecidableEq, Repr

/-- `QuantumSafeWallet::sign_transaction_with_hsm` (src/main.rs, lines
30-41), paired with the trace of successful HSM calls.  The source:
if the owner resolves, open a session (`unwrap`), log in (`unwrap`),
sign (`unwrap`), insert the signature into `signatures`, log out
(`unwrap`); if the owner does not resolve, do nothing and return.
No verification of the produced signature, no `close_session`, and on
a failed `unwrap` the remaining calls (including `logout`) never run. -/
def signTransactionWithHsm (w : QuantumSafeWallet) (owner : String)
    (hsm : Ctx) (message : Message) (pin : String) :
    SignOutcome × List HsmEvent :=
  match lookupS owner w.owners with
  | none => (SignOutcome.ok w, [])
  | some _ =>
    match hsm.openSession with
    | none => (SignOutcome.panicked w, [])
    | some s =>
      match hsm.login s pin with
      | none => (SignOutcome.panicked w, [HsmEvent.opened s])
      | some _ =>
        match hsm.sign s message with
        | none => (SignOutcome.panicked w, [HsmEvent.opened s, HsmEvent.loggedIn s])
        | some sg =>
          match hsm.logout s with
          | none =>
            (SignOutcome.panicked { w with signatures := insertS owner sg w.signatures },
             [HsmEvent.opened s, HsmEvent.loggedIn s, HsmEvent.signed s])
          | some _ =>
            (SignOutcome.ok { w with signatures := insertS owner sg w.signatures },
             [HsmEvent.opened s, HsmEvent.loggedIn s, HsmEvent.signed s,
              HsmEvent.loggedOut s])

/-- The specification's `count_valid` (spec section 4.2), written from the
spec's words: for every `(owner_id, signature)` entry resolve the owner
in the registry, invoke `verify_fn` if resolvable, and count the entries
where verification succeeds; unresolvable owners are excluded, not
errors.  Stated separately from `verifyTransaction` so that the
authorization query can be compared against it. -/
def count_valid (verify : Message → Sig → PubKey → Bool)
    (m : Message) (registry : SMap PubKey) (entries : SMap Sig) : Nat :=
  (entries.filter fun e =>
    match lookupS e.1 registry with
    | some pk => verify m e.2 pk
    | none => false).length

/-- The serialized form of a wallet.  Modelled from the spec: the
serialization itself is `serde_json` (an external crate; `save_wallet`
and `load_wallet` in src/main.rs, lines 57-68, only call it and do file
I/O), and spec section 6 describes the persisted record as "a structured
record containing the owner-to-public-key mapping, the threshold
integer, and the owner-to-signature mapping". -/
structure WalletRecord where
  ownersField : List (String × PubKey)
  thresholdField : Nat
  signaturesField : List (String × Sig)
deriving DecidableEq, Repr

/-- Modelled from the spec: `save_wallet` (src/main.rs, lines 57-61)
writes the serde serialization of the wallet; the record holds the
three fields of spec section 6 (owner map as entry list, threshold,
signature map as entry list). -/
def save_wallet (w : QuantumSafeWallet) : WalletRecord :=
  { ownersField := w.owners
    thresholdField := w.threshold
    signaturesField := w.signatures }

/-- Modelled from the spec: `load_wallet` (src/main.rs, lines 63-68)
deserializes the record back into a wallet; the two `HashMap`s are
rebuilt by inserting the persisted entries one by one. -/
def load_wallet (r : WalletRecord) : QuantumSafeWallet :=
  { owners := r.ownersField.foldl (fun acc e => insertS e.1 e.2 acc) []
    threshold := r.thresholdField
    signatures := r.signaturesField.foldl (fun acc e => insertS e.1 e.2 acc) [] }

/-- Wallet states reachable through the program's own operations:
construction by `QuantumSafeWallet::new`, and any number of
`sign_transaction_with_hsm` calls (with arbitrary HSM behaviour),
whether they return normally or panic mid-way. -/
inductive Reachable : QuantumSafeWallet → Prop where
  | init (owners : SMap PubKey) (t : Nat) (w : QuantumSafeWallet) :
      walletNew owners t = some w → Reachable w
  | stepOk (w : QuantumSafeWallet) (owner : String) (hsm : Ctx)
      (m : Message) (pin : String) (w' : QuantumSafeWallet)
      (ev : List HsmEvent) :
      Reachable w →
      signTransactionWithHsm w owner hsm m pin = (SignOutcome.ok w', ev) →
      Reachable w'
  | stepPanic (w : QuantumSafeWallet) (owner : String) (hsm : Ctx)
      (m : Message) (pin : String) (w' : QuantumSafeWallet)
      (ev : List HsmEvent) :
      Reachable w →
      signTransactionWithHsm w owner hsm m pin = (SignOutcome.panicked w', ev) →
      Reachable w'

/-- A three-owner wallet as in the source's `main` (keys made concrete). -/
def wDemo : QuantumSafeWallet :=
  { owners := [("Alice", 1), ("Bob", 2), ("Charlie", 3)]
    threshold := 2
    signatures := [] }

/-- A one-owner wallet used for concrete evaluations. -/
def wAlice : QuantumSafeWallet :=
  { owners := [("Alice", 1)], threshold := 1, signatures := [] }

/-- An HSM on which every call succeeds; signatures are the constant 7. -/
def hsmGood : Ctx :=
  { openSession := some 0
    login := fun _ _ => some ()
    sign := fun _ _ => some 7
    logout := fun _ => some () }

/-- An HSM that produces the signature 99 (which the demo verifier
below rejects); all session calls succeed. -/
def hsmSignsBad : Ctx :=
  { openSession := some 0
    login := fun _ _ => some ()
    sign := fun _ _ => some 99
    logout := fun _ => some () }

/-- An HSM whose `open_session` fails. -/
def hsmNoOpen : Ctx :=
  { openSession := none
    login := fun _ _ => some ()
    sign := fun _ _ => some 7
    logout := fun _ => some () }

/-- An HSM whose `login` fails (wrong credential). -/
def hsmBadPin : Ctx :=
  { openSession := some 0
    login := fun _ _ => none
    sign := fun _ _ => some 7
    logout := fun _ => some () }

/-- A demo verifier: signature 7 verifies under every key and message,
anything else is rejected.  Stands in for `sphincs::verify`. -/
def vf : Message → Sig → PubKey → Bool := fun _ s _ => s = 7

/-- The wallet state an outcome carries (final state on a normal
return, state at the moment of the panic otherwise). -/
def outcomeWallet : SignOutcome → QuantumSafeWallet
  | SignOutcome.ok w => w
  | SignOutcome.panicked w => w

/-- The wallet accepted by `new` from an empty owner map and threshold 0. -/
def wEmpty : QuantumSafeWallet :=
  { owners := [], threshold := 0, signatures := [] }

/-- `wAlice` after a successful HSM contribution through `hsmGood`. -/
def wAliceSigned : QuantumSafeWallet :=
  { owners := [("Alice", 1)], threshold := 1, signatures := [("Alice", 7)] }

/-- `wAlice` after an HSM contribution through `hsmSignsBad`: the
ledger holds the signature 99, which `vf` rejects. -/
def wAliceBadSig : QuantumSafeWallet :=
  { owners := [("Alice", 1)], threshold := 1, signatures := [("Alice", 99)] }

theorem lookupS_insertS_self {α : Type} (k : String) (v : α) (l : SMap α) :
    lookupS k (insertS k v l) = some v := by
  induction l with
  | nil => simp [insertS, lookupS]
  | cons e t ih =>
    by_cases h : e.1 = k
    · simp [insertS, lookupS, h]
    · simp [insertS, lookupS, h, ih]

theorem mem_keysS_insertS {α : Type} (j k : String) (v : α) (l : SMap α) :
    j ∈ keysS (insertS k v l) → j = k ∨ j ∈ keysS l := by
  induction l with
  | nil => simp [insertS, keysS]
  | cons e t ih =>
    obtain ⟨a, b⟩ := e
    intro hj
    simp only [insertS] at hj
    by_cases h : a = k
    · rw [if_pos h] at hj
      simp only [keysS, List.map_cons, List.mem_cons] at hj ⊢
      rcases hj with hj | hj
      · exact Or.inl hj
      · exact Or.inr (Or.inr hj)
    · rw [if_neg h] at hj
      simp only [keysS, List.map_cons, List.mem_cons] at hj ⊢
      rcases hj with hj | hj
      · exact Or.inr (Or.inl hj)
      · rcases ih hj with hk | hk
        · exact Or.inl hk
        · exact Or.inr (Or.inr hk)

theorem keysS_insertS_nodup {α : Type} (k : String) (v : α) (l : SMap α) :
    (keysS l).Nodup → (keysS (insertS k v l)).Nodup := by
  induction l with
  | nil => intro _; simp [insertS, keysS]
  | cons e t ih =>
    obtain ⟨a, b⟩ := e
    intro hnd
    simp only [keysS, List.map_cons, List.nodup_cons] at hnd
    by_cases h : a = k
    · subst h
      simp only [insertS]
      rw [if_true]
      simp only [keysS, List.map_cons, List.nodup_cons]
      exact ⟨by simpa [keysS] using hnd.1, hnd.2⟩
    · simp only [insertS]
      rw [if_neg h]
      simp only [keysS, List.map_cons, List.nodup_cons]
      refine ⟨?_, ih hnd.2⟩
      intro hmem
      rcases mem_keysS_insertS a k v t hmem with he | he
      · exact h he
      · exact hnd.1 (by simpa [keysS] using he)

theorem lookupS_mem_keysS {α : Type} (k : String) (v : α) (l : SMap α) :
    lookupS k l = some v → k ∈ keysS l := by
  induction l with
  | nil => simp [lookupS]
  | cons e t ih =>
    by_cases h : e.1 = k
    · intro _; simp [keysS, h]
    · simp only [lookupS, if_neg h]
      intro hl
      simp only [keysS, List.map_cons, List.mem_cons]
      exact Or.inr (ih hl)

theorem filter_key_length_le_one {α : Type} (k : String) (l : SMap α) :
    (keysS l).Nodup →
    (l.filter fun e => decide (e.1 = k)).length ≤ 1 := by
  induction l with
  | nil => intro _; simp
  | cons e t ih =>
    intro hnd
    simp only [keysS, List.map_cons, List.nodup_cons] at hnd
    by_cases h : e.1 = k
    · have hzero : (t.filter fun e => decide (e.1 = k)).length = 0 := by
        rw [List.length_eq_zero, List.filter_eq_nil_iff]
        intro a ha
        simp only [decide_eq_true_eq]
        intro hak
        exact hnd.1 (h ▸ hak ▸ List.mem_map_of_mem Prod.fst ha)
      simp [List.filter_cons, h, hzero]
    · simpa [List.filter_cons, h] using ih hnd.2

theorem filter_key_length_eq_one {α : Type} (k : String) (v : α) (l : SMap α) :
    (keysS l).Nodup → lookupS k l = some v →
    (l.filter fun e => decide (e.1 = k)).length = 1 := by
  induction l with
  | nil => simp [lookupS]
  | cons e t ih =>
    intro hnd hl
    simp only [keysS, List.map_cons, List.nodup_cons] at hnd
    by_cases h : e.1 = k
    · have hzero : (t.filter fun e => decide (e.1 = k)).length = 0 := by
        rw [List.length_eq_zero, List.filter_eq_nil_iff]
        intro a ha
        simp only [decide_eq_true_eq]
        intro hak
        exact hnd.1 (h ▸ hak ▸ List.mem_map_of_mem Prod.fst ha)
      simp [List.filter_cons, h, hzero]
    · simp only [lookupS, if_neg h] at hl
      simpa [List.filter_cons, h] using ih hnd.2 hl

theorem signTx_wallet_cases (w : QuantumSafeWallet) (owner : String)
    (hsm : Ctx) (m : Message) (pin : String) :
    outcomeWallet (signTransactionWithHsm w owner hsm m pin).1 = w ∨
    ∃ pk sg, lookupS owner w.owners = some pk ∧
      outcomeWallet (signTransactionWithHsm w owner hsm m pin).1 =
        { w with signatures := insertS owner sg w.signatures } := by
  unfold signTransactionWithHsm
  split
  · exact Or.inl rfl
  · rename_i pk ho
    split
    · exact Or.inl rfl
    · rename_i s hs
      split
      · exact Or.inl rfl
      · rename_i u hl
        split
        · exact Or.inl rfl
        · rename_i sg hsg
          refine Or.inr ⟨pk, sg, ho, ?_⟩
          split
          · rfl
          · rfl

theorem signTx_ok_inv (w : QuantumSafeWallet) (owner : String) (hsm : Ctx)
    (m : Message) (pin : String) (w' : QuantumSafeWallet)
    (ev : List HsmEvent) (pk : PubKey)
    (ho : lookupS owner w.owners = some pk)
    (h : signTransactionWithHsm w owner hsm m pin = (SignOutcome.ok w', ev)) :
    ∃ s sg, hsm.openSession = some s ∧ hsm.sign s m = some sg ∧
      w' = { w with signatures := insertS owner sg w.signatures } := by
  unfold signTransactionWithHsm at h
  split at h
  · rename_i hnone
    rw [ho] at hnone
    cases hnone
  · rename_i pk' ho'
    split at h
    · simp at h
    · rename_i s hs
      split at h
      · simp at h
      · rename_i u hl
        split at h
        · simp at h
        · rename_i sg hsg
          split at h
          · simp at h
          · rename_i u' hlo
            refine ⟨s, sg, hs, hsg, ?_⟩
            have hfst := congrArg Prod.fst h
            simp only [SignOutcome.ok.injEq] at hfst
            exact hfst.symm

theorem insertS_not_mem {α : Type} (k : String) (v : α) (l : SMap α) :
    k ∉ keysS l → insertS k v l = l ++ [(k, v)] := by
  induction l with
  | nil => intro _; rfl
  | cons e t ih =>
    obtain ⟨a, b⟩ := e
    intro hk
    simp only [keysS, List.map_cons, List.mem_cons] at hk
    push_neg at hk
    have hak : ¬ a = k := fun hak => hk.1 hak.symm
    simp only [insertS, if_neg hak, List.cons_append, List.cons.injEq, true_and]
    exact ih hk.2

theorem foldl_insertS_append {α : Type} (l acc : SMap α) :
    (∀ j ∈ keysS l, j ∉ keysS acc) → (keysS l).Nodup →
    l.foldl (fun acc e => insertS e.1 e.2 acc) acc = acc ++ l := by
  induction l generalizing acc with
  | nil => intro _ _; simp
  | cons e t ih =>
    obtain ⟨a, b⟩ := e
    intro hdisj hnd
    simp only [keysS, List.map_cons, List.nodup_cons] at hnd
    have hfresh : a ∉ keysS acc := hdisj a (by simp [keysS])
    have hstep : insertS a b acc = acc ++ [(a, b)] := insertS_not_mem a b acc hfresh
    simp only [List.foldl_cons, hstep]
    have hdisj' : ∀ j ∈ keysS t, j ∉ keysS (acc ++ [(a, b)]) := by
      intro j hj
      simp only [keysS, List.map_append, List.mem_append, List.map_cons,
        List.map_nil, List.mem_singleton]
      push_neg
      constructor
      · exact hdisj j (by simp [keysS] at hj ⊢; exact Or.inr hj)
      · intro hja
        exact hnd.1 (hja ▸ by simpa [keysS] using hj)
    have := ih (acc ++ [(a, b)]) hdisj' hnd.2
    rw [this, List.append_assoc]
    rfl

/-- C1: the authorization query `verify_transaction` returns true if and
only if the number of ledger entries whose owner resolves to a public
key in the registry and whose signature verifies against that key and
the queried message — the specification's `count_valid`, in which
unresolvable owners are excluded rather than errors — is at least the
registry's threshold, for every wallet state, every verifier and every
message. -/
theorem c1_authorized_iff_count_valid_ge_threshold
    (verify : Message → Sig → PubKey → Bool)
    (w : QuantumSafeWallet) (m : Message) :
    verifyTransaction verify w m = true ↔
      w.threshold ≤ count_valid verify m w.owners w.signatures := by
  simp [verifyTransaction, count_valid]

/-- C2 counterexample: constructing a wallet from an empty owners map
with threshold 0 succeeds, although the claim's condition
`1 <= threshold <= n` with `n >= 1` is false there — so construction
does not fail as the claim states. -/
theorem c2_counterexample_empty_owners_threshold_zero :
    (walletNew ([] : SMap PubKey) 0).isSome = true ∧
      ¬ (1 ≤ 0 ∧ 0 ≤ ([] : SMap PubKey).length ∧ 1 ≤ ([] : SMap PubKey).length) := by
  decide

/-- C2 (amended): `QuantumSafeWallet::new` succeeds if and only if
`threshold <= |owners|`; there is no lower bound on the threshold and
no non-emptiness requirement on the owners map, and the failure is an
assertion panic at construction time, not an `InvalidThreshold` error
value. -/
theorem c2_new_succeeds_iff_threshold_le_owner_count
    (owners : SMap PubKey) (t : Nat) :
    (walletNew owners t).isSome = true ↔ t ≤ owners.length := by
  by_cases h : t ≤ owners.length <;> simp [walletNew, h]

/-- C2 witness: a singleton owners map with threshold 1 is accepted. -/
theorem c2_witness_singleton_accepted :
    (walletNew [(("Alice" : String), (1 : PubKey))] 1).isSome = true :=
  (c2_new_succeeds_iff_threshold_le_owner_count [("Alice", 1)] 1).mpr (by decide)

/-- C10: a wallet constructed from an empty owners map with threshold 0
is accepted by `new`, and on it `verify_transaction` returns true for
every verifier and every message although no signature was ever
contributed (`0 >= 0` holds vacuously). -/
theorem c10_empty_wallet_accepted_and_always_authorized :
    walletNew [] 0 = some wEmpty ∧
      ∀ (verify : Message → Sig → PubKey → Bool) (m : Message),
        verifyTransaction verify wEmpty m = true := by
  refine ⟨rfl, ?_⟩
  intro verify m
  rfl

/-- C3 evaluation at the failing input: with the registered owner Alice
and an HSM whose signing call returns the signature 99, which the
verifier `vf` rejects, `sign_transaction_with_hsm` still returns
normally and the rejected signature sits in the ledger — the code never
verifies the produced signature before recording it, and no
`SignatureRejected` failure exists. -/
theorem c3_unverified_signature_recorded :
    (signTransactionWithHsm wAlice ("Alice") hsmSignsBad [1] ("1234")).1 =
        SignOutcome.ok wAliceBadSig ∧
      vf [1] 99 1 = false := by
  decide

/-- C4 counterexample: a contribution from the unregistered owner Eve
returns normally (the Rust function just falls through its `if let`),
with no `UnknownOwner` failure of any kind — the claim's "fails with
UnknownOwner" is false at this input, although the backend is indeed
not invoked and the ledger indeed unchanged. -/
theorem c4_counterexample_unknown_owner_returns_ok :
    signTransactionWithHsm wAlice ("Eve") hsmSignsBad [1] ("1234") =
      (SignOutcome.ok wAlice, []) := by
  decide

/-- C4 (amended): for every owner identifier that does not resolve in
the registry, `sign_transaction_with_hsm` is a silent no-op: it returns
normally without reporting any error, no HSM call is made (no session
is opened), and the wallet — in particular the ledger — is unchanged. -/
theorem c4_unknown_owner_silent_noop (w : QuantumSafeWallet)
    (owner : String) (hsm : Ctx) (m : Message) (pin : String)
    (h : lookupS owner w.owners = none) :
    signTransactionWithHsm w owner hsm m pin = (SignOutcome.ok w, []) := by
  unfold signTransactionWithHsm
  rw [h]

/-- C4 witness: the unregistered owner Eve against the one-owner wallet,
through the all-succeeding HSM. -/
theorem c4_witness_eve_noop :
    signTransactionWithHsm wAlice ("Eve") hsmGood [1] ("1234") =
      (SignOutcome.ok wAlice, []) :=
  c4_unknown_owner_silent_noop wAlice ("Eve") hsmGood [1] ("1234") (by decide)

/-- C5 counterexample: a backend error is not returned to the caller —
when `open_session` fails, the `unwrap` in `sign_transaction_with_hsm`
panics, aborting the process, which contradicts the claim that none of
the errors crashes the process. -/
theorem c5_counterexample_backend_error_panics :
    (signTransactionWithHsm wAlice ("Alice") hsmNoOpen [1] ("1234")).1 =
      SignOutcome.panicked wAlice := by
  decide

/-- C5 (amended): the authorization query indeed never fails — for
every wallet state, verifier and message it totally evaluates to a
boolean, and an insufficient count of valid signatures yields the value
false; but backend errors are not returned to the caller: a failed HSM
call aborts the process through an `unwrap` panic. -/
theorem c5_authorization_total_but_backend_errors_panic :
    (∀ (verify : Message → Sig → PubKey → Bool) (w : QuantumSafeWallet)
        (m : Message),
        verifyTransaction verify w m = false ↔
          count_valid verify m w.owners w.signatures < w.threshold) ∧
    (∀ (w : QuantumSafeWallet) (owner : String) (pk : PubKey) (hsm : Ctx)
        (m : Message) (pin : String),
        lookupS owner w.owners = some pk →
        hsm.openSession = none →
        (signTransactionWithHsm w owner hsm m pin).1 =
          SignOutcome.panicked w) := by
  constructor
  · intro verify w m
    simp [verifyTransaction, count_valid, Nat.not_le]
  · intro w owner pk hsm m pin ho hopen
    unfold signTransactionWithHsm
    rw [ho, hopen]

/-- C5 witness: authorization on the empty-ledger one-owner wallet is
the value false (not an error), and an HSM whose session opening fails
makes the contribution panic. -/
theorem c5_witness :
    verifyTransaction vf wAlice [2] = false ∧
      (signTransactionWithHsm wAlice ("Alice") hsmNoOpen [2] ("1234")).1 =
        SignOutcome.panicked wAlice :=
  ⟨(c5_authorization_total_but_backend_errors_panic.1 vf wAlice [2]).mpr (by decide),
   c5_authorization_total_but_backend_errors_panic.2 wAlice ("Alice") 1 hsmNoOpen
     [2] ("1234") (by decide) rfl⟩

/-- C9 evaluation at the failing input: when authentication fails (the
`login` call returns an error), the call panics with the trace
`[opened 0]` — the session is left open, neither deauthenticated nor
closed; and even on the fully successful path the trace is
`[opened, loggedIn, signed, loggedOut]` with no `closed` event: the
source never calls `close_session` on any exit path. -/
theorem c9_session_never_closed :
    signTransactionWithHsm wAlice ("Alice") hsmBadPin [1] ("9999") =
        (SignOutcome.panicked wAlice, [HsmEvent.opened 0]) ∧
      signTransactionWithHsm wAlice ("Alice") hsmGood [1] ("1234") =
        (SignOutcome.ok wAliceSigned,
         [HsmEvent.opened 0, HsmEvent.loggedIn 0, HsmEvent.signed 0,
          HsmEvent.loggedOut 0]) ∧
      HsmEvent.closed 0 ∉ [HsmEvent.opened 0] ∧
      HsmEvent.closed 0 ∉
        [HsmEvent.opened 0, HsmEvent.loggedIn 0, HsmEvent.signed 0,
         HsmEvent.loggedOut 0] := by
  decide

/-- C6: in every wallet state reachable through the program's own
operations — construction by `new` and arbitrary
`sign_transaction_with_hsm` calls, whether they return or panic —
every key of the signature ledger is also a key of the owners map: the
ledger starts empty, and an insertion only happens after the owner
resolved in the registry. -/
theorem c6_ledger_keys_subset_owners (w : QuantumSafeWallet)
    (h : Reachable w) :
    ∀ k, k ∈ keysS w.signatures → k ∈ keysS w.owners := by
  induction h with
  | init owners t w hw =>
    intro k hk
    unfold walletNew at hw
    split at hw
    · cases hw
      simp [keysS] at hk
    · cases hw
  | stepOk w owner hsm m pin w' ev hr hstep ih =>
    intro k hk
    have hcase := signTx_wallet_cases w owner hsm m pin
    rw [hstep] at hcase
    simp only [outcomeWallet] at hcase
    rcases hcase with hcase | ⟨pk, sg, ho, hcase⟩
    · rw [hcase] at hk ⊢
      exact ih k hk
    · rw [hcase] at hk ⊢
      rcases mem_keysS_insertS k owner sg w.signatures hk with hko | hko
      · exact hko ▸ lookupS_mem_keysS owner pk w.owners ho
      · exact ih k hko
  | stepPanic w owner hsm m pin w' ev hr hstep ih =>
    intro k hk
    have hcase := signTx_wallet_cases w owner hsm m pin
    rw [hstep] at hcase
    simp only [outcomeWallet] at hcase
    rcases hcase with hcase | ⟨pk, sg, ho, hcase⟩
    · rw [hcase] at hk ⊢
      exact ih k hk
    · rw [hcase] at hk ⊢
      rcases mem_keysS_insertS k owner sg w.signatures hk with hko | hko
      · exact hko ▸ lookupS_mem_keysS owner pk w.owners ho
      · exact ih k hko

/-- C6 witness: the invariant applied to the concrete reachable state
reached by constructing the one-owner wallet and letting Alice sign. -/
theorem c6_witness_alice_in_owners :
    ("Alice" : String) ∈ keysS wAliceSigned.owners :=
  c6_ledger_keys_subset_owners wAliceSigned
    (Reachable.stepOk wAlice ("Alice") hsmGood [1] ("1234") wAliceSigned
      [HsmEvent.opened 0, HsmEvent.loggedIn 0, HsmEvent.signed 0,
       HsmEvent.loggedOut 0]
      (Reachable.init [(("Alice" : String), (1 : PubKey))] 1 wAlice (by decide))
      (by decide))
    ("Alice") (by decide)

/-- C7: a second successful contribution by the same owner replaces the
first ledger entry rather than adding a duplicate: starting from any
wallet whose ledger has no duplicate keys, after two successful
`sign_transaction_with_hsm` calls for the same registered owner, the
ledger holds the second backend's signature under that owner, has
exactly one entry for that owner, and still has at most one entry per
owner. -/
theorem c7_second_contribution_replaces (w : QuantumSafeWallet)
    (owner : String) (hsm1 hsm2 : Ctx) (m : Message) (pin : String)
    (w1 w2 : QuantumSafeWallet) (ev1 ev2 : List HsmEvent) (pk : PubKey)
    (s : Nat) (sg2 : Sig)
    (hnd : (keysS w.signatures).Nodup)
    (ho : lookupS owner w.owners = some pk)
    (h1 : signTransactionWithHsm w owner hsm1 m pin = (SignOutcome.ok w1, ev1))
    (hs2 : hsm2.openSession = some s)
    (hsg2 : hsm2.sign s m = some sg2)
    (h2 : signTransactionWithHsm w1 owner hsm2 m pin = (SignOutcome.ok w2, ev2)) :
    lookupS owner w2.signatures = some sg2 ∧
      (w2.signatures.filter fun e => decide (e.1 = owner)).length = 1 ∧
      ∀ o, (w2.signatures.filter fun e => decide (e.1 = o)).length ≤ 1 := by
  obtain ⟨s1, sg1, hs1, hsg1, hw1⟩ :=
    signTx_ok_inv w owner hsm1 m pin w1 ev1 pk ho h1
  have ho1 : lookupS owner w1.owners = some pk := by rw [hw1]; exact ho
  obtain ⟨s2', sg2', hs2', hsg2', hw2⟩ :=
    signTx_ok_inv w1 owner hsm2 m pin w2 ev2 pk ho1 h2
  have hs : s2' = s := by
    rw [hs2] at hs2'
    exact (Option.some.injEq _ _).mp hs2'.symm
  rw [hs] at hsg2'
  have hsg : sg2' = sg2 := by
    rw [hsg2] at hsg2'
    exact (Option.some.injEq _ _).mp hsg2'.symm
  rw [hsg] at hw2
  have hnd1 : (keysS w1.signatures).Nodup := by
    rw [hw1]
    exact keysS_insertS_nodup owner sg1 w.signatures hnd
  have hnd2 : (keysS w2.signatures).Nodup := by
    rw [hw2]
    exact keysS_insertS_nodup owner sg2 w1.signatures hnd1
  have hlk : lookupS owner w2.signatures = some sg2 := by
    rw [hw2]
    exact lookupS_insertS_self owner sg2 w1.signatures
  refine ⟨hlk, ?_, ?_⟩
  · exact filter_key_length_eq_one owner sg2 w2.signatures hnd2 hlk
  · intro o
    exact filter_key_length_le_one o w2.signatures hnd2

/-- C7 witness: Alice signs through `hsmGood` (signature 7), then again
through `hsmSignsBad` (signature 99); the final ledger holds exactly
the entry `("Alice", 99)`. -/
theorem c7_witness_alice_resigned :
    lookupS ("Alice") wAliceBadSig.signatures = some 99 ∧
      (wAliceBadSig.signatures.filter
        fun e => decide (e.1 = ("Alice" : String))).length = 1 :=
  ⟨(c7_second_contribution_replaces wAlice ("Alice") hsmGood hsmSignsBad [1]
      ("1234") wAliceSigned wAliceBadSig
      [HsmEvent.opened 0, HsmEvent.loggedIn 0, HsmEvent.signed 0,
       HsmEvent.loggedOut 0]
      [HsmEvent.opened 0, HsmEvent.loggedIn 0, HsmEvent.signed 0,
       HsmEvent.loggedOut 0]
      1 0 99 (by decide) (by decide) (by decide) rfl rfl (by decide)).1,
   (c7_second_contribution_replaces wAlice ("Alice") hsmGood hsmSignsBad [1]
      ("1234") wAliceSigned wAliceBadSig
      [HsmEvent.opened 0, HsmEvent.loggedIn 0, HsmEvent.signed 0,
       HsmEvent.loggedOut 0]
      [HsmEvent.opened 0, HsmEvent.loggedIn 0, HsmEvent.signed 0,
       HsmEvent.loggedOut 0]
      1 0 99 (by decide) (by decide) (by decide) rfl rfl (by decide)).2.1⟩

/-- C8: deserializing the serialization of a wallet (maps persisted as
entry lists and rebuilt insertion by insertion) reproduces a wallet
with identical owners, threshold and signatures, and the authorization
decision on the reloaded wallet agrees with the original for every
verifier and message. -/
theorem c8_save_load_roundtrip (w : QuantumSafeWallet)
    (hno : (keysS w.owners).Nodup) (hns : (keysS w.signatures).Nodup) :
    load_wallet (save_wallet w) = w ∧
      ∀ (verify : Message → Sig → PubKey → Bool) (m : Message),
        verifyTransaction verify (load_wallet (save_wallet w)) m =
          verifyTransaction verify w m := by
  have howners :
      w.owners.foldl (fun acc e => insertS e.1 e.2 acc) [] = w.owners := by
    have := foldl_insertS_append w.owners []
      (by intro j hj; simp [keysS]) hno
    simpa using this
  have hsigs :
      w.signatures.foldl (fun acc e => insertS e.1 e.2 acc) [] = w.signatures := by
    have := foldl_insertS_append w.signatures []
      (by intro j hj; simp [keysS]) hns
    simpa using this
  have hround : load_wallet (save_wallet w) = w := by
    unfold load_wallet save_wallet
    rw [howners, hsigs]
  exact ⟨hround, fun verify m => by rw [hround]⟩

/-- C8 witness: the three-owner demo wallet round-trips exactly. -/
theorem c8_witness_demo_roundtrip :
    load_wallet (save_wallet wDemo) = wDemo :=
  (c8_save_load_roundtrip wDemo (by decide) (by decide)).1
